import Mathlib

/-!
Verification of the taskflow scheduling engine.

This file is a shallow embedding of the core scheduling/conflict engine of
the repository: the task and constraint data model (src/domain/task.py), the
time-block/zone/event model (src/domain/timeblock.py), the conflict detector
(src/domain/conflict.py), the split strategy (src_/domain/splitting.py), the
sequence-based scheduling strategy (src_/domain/scheduling/strategies.py) and
the scheduler orchestrator (src/domain/scheduler.py).

Conventions of the embedding:
* `datetime` values are represented as integer minutes since an arbitrary
  epoch (all arithmetic in the source is whole-minute `timedelta` arithmetic,
  so `total_seconds() / 60` is exact on these values);
* Python `//` floor division is `Int.fdiv`, `-(-a // b)` (ceiling division)
  is `pyCeilDiv`;
* Python sets of task ids are lists with membership-respecting insertion;
* Python `list.sort` (a stable sort) is the stable insertion sort `sortLe`;
* fallible constructors (`Task.split`) return `Except String`;
* the float `zone_utilization` of `SplitMetrics` is represented exactly as a
  rational number.
-/

set_option maxRecDepth 10000

namespace Taskflow

/-- `ZoneType` enum of src/domain/task.py. -/
inductive ZoneType
  | deep
  | light
  | admin
deriving DecidableEq, Repr

/-- The `.value` string of the Python enum member. -/
def ZoneType.value : ZoneType → String
  | .deep => "deep"
  | .light => "light"
  | .admin => "admin"

/-- `EnergyLevel` enum of src/domain/task.py. -/
inductive EnergyLevel
  | high
  | medium
  | low
deriving DecidableEq, Repr

/-- The `.value` string of the Python enum member. -/
def EnergyLevel.value : EnergyLevel → String
  | .high => "high"
  | .medium => "medium"
  | .low => "low"

/-- `TimeBlockType` enum of src/domain/timeblock.py. -/
inductive TimeBlockType
  | fixed
  | managed
  | zone
deriving DecidableEq, Repr

/-- `Event` of src/domain/timeblock.py: a placed calendar entry.
`start`/`end` are minutes since the epoch; the Python `end` attribute is
called `end_` because `end` is a Lean keyword. -/
structure Event where
  id : String
  start : Int
  end_ : Int
  title : String
  type : TimeBlockType
  buffer_required : Int := 0
deriving DecidableEq, Repr

/-- `TaskConstraints` of src/domain/task.py. -/
structure TaskConstraints where
  zone_type : ZoneType
  energy_level : EnergyLevel
  is_splittable : Bool
  min_chunk_duration : Int
  max_split_count : Int
  required_buffer : Int
  dependencies : List String
deriving DecidableEq, Repr

/-- `Task` of src/domain/task.py. `duration` is in minutes, `due_date` is
minutes since the epoch. -/
structure Task where
  id : String
  title : String
  duration : Int
  due_date : Int
  project_id : String
  sequence_number : Int
  constraints : TaskConstraints
deriving DecidableEq, Repr

/-- `TimeBlock` of src/domain/timeblock.py. -/
structure TimeBlock where
  start : Int
  end_ : Int
  type : TimeBlockType
  events : List Event := []
deriving DecidableEq, Repr

/-- `TimeBlock.get_conflicts`: events of the block overlapping
`[start, start + duration)`. -/
def TimeBlock.get_conflicts (b : TimeBlock) (start : Int) (duration : Int) : List Event :=
  let e := start + duration
  b.events.filter (fun ev => decide (start < ev.end_ ∧ e > ev.start))

/-- `TimeBlock.is_available`. -/
def TimeBlock.is_available (b : TimeBlock) (start : Int) (duration : Int) : Bool :=
  if start < b.start ∨ start + duration > b.end_ then false
  else (b.get_conflicts start duration).length == 0

/-- `TimeBlockZone` of src/domain/timeblock.py. -/
structure TimeBlockZone where
  start : Int
  end_ : Int
  zone_type : ZoneType
  energy_level : EnergyLevel
  min_duration : Int
  buffer_required : Int
  type : TimeBlockType := TimeBlockType.zone
  events : List Event := []
deriving DecidableEq, Repr

/-- `TimeBlockZone.get_conflicts`: direct overlaps plus, when the zone demands
a buffer, events inside the buffer margin around the proposed interval that
were not already collected. -/
def TimeBlockZone.get_conflicts (z : TimeBlockZone) (start : Int) (duration : Int) :
    List Event :=
  let e := start + duration
  let conflicts := z.events.filter (fun ev => decide (start < ev.end_ ∧ e > ev.start))
  if z.buffer_required > 0 then
    let buffer_start := start - z.buffer_required
    let buffer_end := start + duration + z.buffer_required
    let buffer_conflicts := z.events.filter (fun ev =>
      decide (buffer_start < ev.end_ ∧ buffer_end > ev.start) && !(conflicts.contains ev))
    conflicts ++ buffer_conflicts
  else conflicts

/-- `TimeBlockZone.is_available`. -/
def TimeBlockZone.is_available (z : TimeBlockZone) (start : Int) (duration : Int) : Bool :=
  if duration < z.min_duration then false
  else if start < z.start ∨ start + duration > z.end_ then false
  else (z.get_conflicts start duration).length == 0

/-- A time block argument of the conflict detector: either a plain `TimeBlock`
or a `TimeBlockZone` (the Python code dispatches on
`isinstance(time_block, TimeBlockZone)`). -/
inductive Block
  | plain (b : TimeBlock)
  | zone (z : TimeBlockZone)
deriving DecidableEq, Repr

def Block.start : Block → Int
  | .plain b => b.start
  | .zone z => z.start

def Block.end_ : Block → Int
  | .plain b => b.end_
  | .zone z => z.end_

def Block.events : Block → List Event
  | .plain b => b.events
  | .zone z => z.events

/-- Dynamic dispatch of `get_conflicts` over the two block classes. -/
def Block.get_conflicts : Block → Int → Int → List Event
  | .plain b, s, d => b.get_conflicts s d
  | .zone z, s, d => z.get_conflicts s d

/-- `time_block.buffer_required if isinstance(time_block, TimeBlockZone) else 0`. -/
def Block.zoneBuffer : Block → Int
  | .plain _ => 0
  | .zone z => z.buffer_required

/-- `SchedulingConflict` of src/domain/conflict.py. -/
structure SchedulingConflict where
  task : Task
  conflicting_events : List Event
  proposed_start : Int
  message : String
deriving DecidableEq, Repr

/-- `ConflictDetector.find_conflicts` of src/domain/conflict.py: direct-overlap
check, then buffer-violation check, then (zones only) zone-type, energy-level
and minimum-duration checks, in that order. -/
def find_conflicts (task : Task) (proposed_start : Int) (time_block : Block) :
    Option SchedulingConflict :=
  let proposed_end := proposed_start + task.duration
  let required_buffer := max task.constraints.required_buffer time_block.zoneBuffer
  let total_duration := task.duration + 2 * required_buffer
  let buffer_start := proposed_start - required_buffer
  let all_conflicts := time_block.get_conflicts buffer_start total_duration
  let direct_conflicts := all_conflicts.filter (fun ev =>
    decide (ev.start < proposed_end ∧ ev.end_ > proposed_start))
  if !direct_conflicts.isEmpty then
    some ⟨task, direct_conflicts, proposed_start, "Time slot has conflicting events"⟩
  else
    let buffer_conflicts := all_conflicts.filter (fun ev =>
      decide ((ev.end_ ≤ proposed_start ∧ proposed_start - ev.end_ < required_buffer) ∨
        (ev.start ≥ proposed_end ∧ ev.start - proposed_end < required_buffer)))
    if !buffer_conflicts.isEmpty then
      some ⟨task, buffer_conflicts, proposed_start,
        "Buffer requirement of " ++ toString required_buffer ++ " minutes not met"⟩
    else
      match time_block with
      | .plain _ => none
      | .zone z =>
        if z.zone_type ≠ task.constraints.zone_type then
          some ⟨task, [], proposed_start,
            "Task requires " ++ task.constraints.zone_type.value ++ " zone"⟩
        else if z.energy_level ≠ task.constraints.energy_level then
          some ⟨task, [], proposed_start,
            "Task requires " ++ task.constraints.energy_level.value ++ " energy level"⟩
        else if task.duration < z.min_duration then
          some ⟨task, [], proposed_start,
            "Task duration below zone minimum (" ++ toString z.min_duration ++ " min)"⟩
        else none

/-- The `max((e for e in all_events if e.end <= current_time), key=e.end,
default=None)` computation of `find_available_slot`: the first event (in list
order) with the greatest `end` among events ending at or before `current`. -/
def last_event_before (events : List Event) (current : Int) : Option Event :=
  events.foldl (fun acc ev =>
    if ev.end_ ≤ current then
      match acc with
      | none => some ev
      | some b => if ev.end_ > b.end_ then some ev else acc
    else acc) none

/-- The scan loop of `ConflictDetector.find_available_slot`: walk forward in
15-minute increments while `current < end_time`, returning the first
conflict-free candidate. The structural `fuel` argument is an upper bound on
the number of remaining iterations; `findSlotLoop_fuel` below shows that any
fuel of at least `(end_time - current).toNat` gives the same result, so the
wrapper's choice of fuel makes this exactly the source's `while` loop (the
loop advances by 15 minutes per iteration, so it runs at most
`end_time - current` times). -/
def findSlotLoop (task : Task) (time_block : Block) (end_time : Int) :
    Nat → Int → Option Int
  | 0, _ => none
  | fuel + 1, current =>
    if current < end_time then
      if find_conflicts task current time_block = none then some current
      else findSlotLoop task time_block end_time fuel (current + 15)
    else none

/-- `ConflictDetector.find_available_slot` of src/domain/conflict.py. -/
def find_available_slot (task : Task) (time_block : Block) (start_from : Int) :
    Option Int :=
  let current0 := max start_from time_block.start
  let end_time := min task.due_date time_block.end_
  let required_buffer := max task.constraints.required_buffer time_block.zoneBuffer
  let current1 :=
    if !time_block.events.isEmpty then
      match last_event_before time_block.events current0 with
      | some le => max current0 (le.end_ + required_buffer)
      | none => current0
    else current0
  findSlotLoop task time_block end_time (end_time - current1).toNat current1

/-- `Task.validate` of src/domain/task.py, parameterised by the current time
(`datetime.now()` in the source). -/
def Task.validate (t : Task) (now : Int) : List String :=
  let e1 := if t.duration ≤ 0 then ["Task duration must be positive"] else []
  let e2 := if t.due_date < now then ["Due date cannot be in the past"] else []
  let e3 := if t.sequence_number < 0 then ["Sequence number must be non-negative"] else []
  let e4 :=
    if t.constraints.is_splittable then
      let total_min_duration := t.constraints.min_chunk_duration * t.constraints.max_split_count
      if total_min_duration > t.duration then
        ["Total minimum chunk duration (" ++ toString total_min_duration ++
          " min) exceeds task duration (" ++ toString t.duration ++ " min)"]
      else []
    else []
  e1 ++ e2 ++ e3 ++ e4

/-- One child chunk built by `Task.split`; `i` is the 1-based chunk index and
`n` the total number of chunks. -/
def Task.mkChunk (t : Task) (i : Nat) (size : Int) (n : Nat) : Task :=
  let chunk_dependencies :=
    if i = 1 then t.constraints.dependencies
    else [t.id ++ "_chunk_" ++ toString (i - 1)]
  { id := t.id ++ "_chunk_" ++ toString i
    title := t.title ++ " (Part " ++ toString i ++ "/" ++ toString n ++ ")"
    duration := size
    due_date := t.due_date
    project_id := t.project_id
    sequence_number := t.sequence_number * 1000 + i
    constraints :=
      { zone_type := t.constraints.zone_type
        energy_level := t.constraints.energy_level
        is_splittable := false
        min_chunk_duration := t.constraints.min_chunk_duration
        max_split_count := 1
        required_buffer := t.constraints.required_buffer
        dependencies := chunk_dependencies } }

/-- `Task.split` of src/domain/task.py: validates the chunk sizes (raising a
descriptive `ValueError`, modelled by `Except.error`) and produces the list of
sequentially dependent child tasks. -/
def Task.split (t : Task) (chunk_sizes : List Int) : Except String (List Task) :=
  if chunk_sizes.length > t.constraints.max_split_count then
    Except.error ("Exceeds maximum split count of " ++ toString t.constraints.max_split_count)
  else if chunk_sizes.sum ≠ t.duration then
    Except.error ("Sum of chunk sizes (" ++ toString chunk_sizes.sum ++
      ") must equal task duration (" ++ toString t.duration ++ ")")
  else if chunk_sizes.any (fun size => size < t.constraints.min_chunk_duration) then
    Except.error ("All chunks must be at least " ++
      toString t.constraints.min_chunk_duration ++ " minutes")
  else if !t.constraints.is_splittable then
    Except.error ("Task is not splittable")
  else
    Except.ok ((chunk_sizes.enum).map (fun p => t.mkChunk (p.1 + 1) p.2 chunk_sizes.length))

/-- Python ceiling division `-(-a // b)` (with `//` floor division). -/
def pyCeilDiv (a b : Int) : Int := -((-a).fdiv b)

/-- `SplitMetrics` of src_/domain/splitting.py; the float `zone_utilization`
is represented exactly as a rational. -/
structure SplitMetrics where
  optimal_chunk_count : Int
  chunk_duration : Int
  total_buffer_time : Int
  zone_utilization : ℚ
deriving DecidableEq, Repr

/-- `SplitStrategy.calculate_optimal_split` of src_/domain/splitting.py.
The `morning_deep_zones` computation of the source only feeds debug printing
and does not influence the returned metrics, so it is not replicated. -/
def calculate_optimal_split (total_duration : Int) (available_zones : List TimeBlockZone)
    (_min_chunk_duration : Int) (max_splits : Int) : Option SplitMetrics :=
  if available_zones.isEmpty || total_duration ≤ 0 then none
  else
    let preferred_chunk_size : Int := 120
    let optimal_chunks0 := max 1 (pyCeilDiv total_duration preferred_chunk_size)
    let optimal_chunks := min optimal_chunks0 (max_splits + 1)
    let chunk_duration := pyCeilDiv total_duration optimal_chunks
    let between_chunks_buffer := (optimal_chunks - 1) * 15
    let existing_events_buffer := optimal_chunks * (15 * 2)
    let total_buffer := between_chunks_buffer + existing_events_buffer
    let zones_needed := optimal_chunks
    let usable_zone_capacity := zones_needed * chunk_duration
    let zone_utilization : ℚ :=
      if usable_zone_capacity > 0 then (total_duration : ℚ) / (usable_zone_capacity : ℚ)
      else 0
    some ⟨optimal_chunks, chunk_duration, total_buffer, min zone_utilization 1⟩

/-! ### Stable sorting, mirroring Python `list.sort` / `sorted`

`sortLe le` is an insertion sort that is stable for any total preorder
test `le` (`le a b` = "key of `a` ≤ key of `b`"), matching the stability
guarantee of Python's sort. -/

def insertLe {α : Type} (le : α → α → Bool) (x : α) : List α → List α
  | [] => [x]
  | y :: ys => if le x y then x :: y :: ys else y :: insertLe le x ys

def sortLe {α : Type} (le : α → α → Bool) (l : List α) : List α :=
  l.foldr (insertLe le) []

/-- Sort test for events, `key=lambda e: e.start`. -/
def eventLe (a b : Event) : Bool := decide (a.start ≤ b.start)

/-- Sort test for zones, `key=lambda z: z.start`. -/
def zoneLe (a b : TimeBlockZone) : Bool := decide (a.start ≤ b.start)

/-- Sort test for tasks, `key=lambda t: (t.due_date, t.project_id,
t.sequence_number)` (Python tuple comparison, strings compared
lexicographically). -/
def taskLe (a b : Task) : Bool :=
  decide (a.due_date < b.due_date) ||
    (decide (a.due_date = b.due_date) &&
      (decide (a.project_id < b.project_id) ||
        (decide (a.project_id = b.project_id) &&
          decide (a.sequence_number ≤ b.sequence_number))))

/-- Python `set.add` on the scheduled-id set (represented as a list with set
membership semantics). -/
def insertId (x : String) (ids : List String) : List String :=
  if x ∈ ids then ids else x :: ids

/-! ### SequenceBasedStrategy (src_/domain/scheduling/strategies.py) -/

/-- `_find_available_slots_with_duration`: candidate gaps inside a zone —
the gap before the zone's first overlapping event, gaps between consecutive
events (start pushed past the previous event by `required_buffer`), and the
gap after the last event, each kept when at least `min_duration` minutes. -/
def find_available_slots_with_duration (zone : TimeBlockZone) (events : List Event)
    (min_duration : Int) (required_buffer : Int) : List (Int × Int) :=
  let current := zone.start
  let zone_events := events.filter (fun e => decide (e.end_ > zone.start ∧ e.start < zone.end_))
  let zone_events := sortLe eventLe zone_events
  match zone_events with
  | [] =>
    if zone.end_ - zone.start ≥ min_duration then [(zone.start, zone.end_)] else []
  | first :: rest =>
    let firstSlot :=
      if first.start - current ≥ min_duration then [(current, first.start)] else []
    let betweenSlots := ((first :: rest).zip rest).filterMap (fun p =>
      let slot_start := p.1.end_ + required_buffer
      if p.2.start - slot_start ≥ min_duration then some (slot_start, p.2.start) else none)
    let last_event := (first :: rest).getLast (List.cons_ne_nil _ _)
    let final_start := last_event.end_ + required_buffer
    let finalSlot :=
      if zone.end_ - final_start ≥ min_duration then [(final_start, zone.end_)] else []
    firstSlot ++ betweenSlots ++ finalSlot

/-- The zone scan of one chunk iteration in `_try_schedule_split_task`: the
first zone (in the given order) of the task's zone type holding at least one
slot; returns the start of that zone's first slot. -/
def firstChunkSlot (task : Task) (current_events : List Event) (chunk_duration : Int) :
    List TimeBlockZone → Option Int
  | [] => none
  | z :: zs =>
    if z.zone_type ≠ task.constraints.zone_type then
      firstChunkSlot task current_events chunk_duration zs
    else
      match find_available_slots_with_duration z current_events chunk_duration
          task.constraints.required_buffer with
      | [] => firstChunkSlot task current_events chunk_duration zs
      | (slot_start, _) :: _ => some slot_start

/-- The chunk event created for chunk number `chunk_count + 1` of a split
task. -/
def chunkEvent (task : Task) (chunk_count : Int) (slot_start chunk_duration : Int) : Event :=
  { id := task.id ++ "_chunk_" ++ toString (chunk_count + 1)
    start := slot_start
    end_ := slot_start + chunk_duration
    title := task.title ++ " (Part " ++ toString (chunk_count + 1) ++ ")"
    type := TimeBlockType.managed
    buffer_required := task.constraints.required_buffer }

/-- The `while remaining_duration > 0 and chunk_count < max_split_count` loop
of `_try_schedule_split_task`. Returns the accumulated `task_events` when the
attempt succeeds (`remaining_duration <= 0` on exit) and `none` when a chunk
finds no slot in any zone or the split count is exhausted with duration
left. The structural `fuel` argument is maintained as exactly
`(max_split_count - chunk_count).toNat` (the wrapper passes
`max_split_count.toNat` with `chunk_count = 0`, and each iteration increments
`chunk_count` while consuming one fuel), so `fuel = 0` is precisely the
source's `chunk_count < max_split_count` loop exit and `fuel + 1` precisely
`chunk_count < max_split_count`. -/
def split_sched_loop (task : Task) (sorted_zones : List TimeBlockZone) (optimal : Int) :
    Nat → Int → Int → List Event → List Event → Option (List Event)
  | 0, remaining, _, _, task_events =>
    if remaining ≤ 0 then some task_events else none
  | fuel + 1, remaining, chunk_count, current_events, task_events =>
    if remaining > 0 then
      let chunk_duration := min remaining optimal
      match firstChunkSlot task current_events chunk_duration sorted_zones with
      | none => none
      | some slot_start =>
        let ev := chunkEvent task chunk_count slot_start chunk_duration
        split_sched_loop task sorted_zones optimal fuel (remaining - chunk_duration)
          (chunk_count + 1) (current_events ++ [ev]) (task_events ++ [ev])
    else if remaining ≤ 0 then some task_events else none

/-- `_try_schedule_split_task`: schedules a splittable task as chunks against
a private copy of the event list (`current_events`), committing the chunk
events to the shared accumulator and the parent id to the scheduled-id set
only when the whole attempt succeeds. Returns
`(success, events', scheduled_task_ids')`. -/
def try_schedule_split_task (task : Task) (zones : List TimeBlockZone)
    (events : List Event) (scheduled_task_ids : List String) :
    Bool × List Event × List String :=
  let sorted_zones := sortLe zoneLe zones
  let optimal_chunk_size :=
    max (min (task.duration.fdiv 2) 120) task.constraints.min_chunk_duration
  match split_sched_loop task sorted_zones optimal_chunk_size
      task.constraints.max_split_count.toNat task.duration 0 events [] with
  | none => (false, events, scheduled_task_ids)
  | some task_events => (true, events ++ task_events, insertId task.id scheduled_task_ids)

/-- `_try_schedule_task`: walks the zone list; in the first zone of the
task's type where the candidate start (pushed past the most recently appended
event plus buffer) fits and `find_conflicts` reports nothing, appends a
MANAGED event and records the task id. Returns
`(success, events', scheduled_task_ids')`. -/
def try_schedule_task (task : Task) : List TimeBlockZone → List Event → List String →
    Bool × List Event × List String
  | [], events, scheduled_task_ids => (false, events, scheduled_task_ids)
  | z :: zs, events, scheduled_task_ids =>
    if z.zone_type ≠ task.constraints.zone_type then
      try_schedule_task task zs events scheduled_task_ids
    else
      let current_time :=
        match events.getLast? with
        | some last_event =>
          max z.start (last_event.end_ +
            max task.constraints.required_buffer last_event.buffer_required)
        | none => z.start
      if current_time + task.duration ≤ z.end_ then
        match find_conflicts task current_time (Block.zone z) with
        | none =>
          let ev : Event :=
            { id := task.id
              start := current_time
              end_ := current_time + task.duration
              title := task.title
              type := TimeBlockType.managed
              buffer_required := task.constraints.required_buffer }
          (true, events ++ [ev], insertId task.id scheduled_task_ids)
        | some _ => try_schedule_task task zs events scheduled_task_ids
      else try_schedule_task task zs events scheduled_task_ids

/-- `_create_multi_day_zones`: one copy of every base zone per day of the
horizon, at the same time of day, with an empty event list. `replace(hour=h,
minute=m)` on a whole-minute datetime is `1440 * (t / 1440) + 60 * h + m`,
i.e. the day floor plus the base zone's minute-of-day. -/
def create_multi_day_zones (base_zones : List TimeBlockZone) (days : Nat) :
    List TimeBlockZone :=
  match base_zones with
  | [] => []
  | z0 :: _ =>
    (List.range days).flatMap (fun day =>
      let day_start := z0.start + 1440 * (day : Int)
      base_zones.map (fun zone =>
        { start := 1440 * day_start.fdiv 1440 + zone.start.emod 1440
          end_ := 1440 * day_start.fdiv 1440 + zone.end_.emod 1440
          zone_type := zone.zone_type
          energy_level := zone.energy_level
          min_duration := zone.min_duration
          buffer_required := zone.buffer_required
          type := TimeBlockType.zone
          events := [] }))

/-- The dependency-readiness filter of the scheduling loop. -/
def availableTasks (remaining : List Task) (scheduled_task_ids : List String) : List Task :=
  remaining.filter (fun t =>
    t.constraints.dependencies.all (fun dep => scheduled_task_ids.contains dep))

/-- The `while remaining_tasks` loop of `SequenceBasedStrategy.schedule`:
pick the first available task in `(due_date, project_id, sequence_number)`
order, attempt placement (split or single block), and either continue with
the task removed or abort the loop (dependency deadlock / placement
failure). The source's `while remaining_tasks:` guard needs no separate
case here: an empty `remaining` yields an empty `available` list and the
same `(events, scheduled_task_ids)` result. The structural `fuel` argument
bounds the number of iterations; every iteration that continues removes the
chosen task (a member of `remaining`) from `remaining`, so the wrapper's
`tasks.length` fuel is an upper bound and the `fuel = 0` branch fires only
with `remaining = []`, where it returns the same result as the loop exit
(`scheduleLoop_fuel` below makes this precise). -/
def scheduleLoop (all_zones : List TimeBlockZone) :
    Nat → List Task → List Event → List String → List Event × List String
  | 0, _, events, scheduled_task_ids => (events, scheduled_task_ids)
  | fuel + 1, remaining, events, scheduled_task_ids =>
    match sortLe taskLe (availableTasks remaining scheduled_task_ids) with
    | [] => (events, scheduled_task_ids)
    | task :: _ =>
      let attempt :=
        if task.constraints.is_splittable then
          try_schedule_split_task task all_zones events scheduled_task_ids
        else
          try_schedule_task task all_zones events scheduled_task_ids
      match attempt with
      | (true, events', ids') =>
        scheduleLoop all_zones fuel (remaining.erase task) events' ids'
      | (false, _, _) => (events, scheduled_task_ids)

/-- `SequenceBasedStrategy.schedule`: projects the zone templates over a
7-day horizon, runs the scheduling loop over a copy of the inputs, and
returns the MANAGED events of the accumulated list. -/
def schedule (tasks : List Task) (zones : List TimeBlockZone)
    (existing_events : List Event) : List Event :=
  if zones.isEmpty then []
  else
    let all_zones := create_multi_day_zones zones 7
    let result := scheduleLoop all_zones tasks.length tasks existing_events []
    result.1.filter (fun e => decide (e.type = TimeBlockType.managed))


/-! ### Scheduler orchestrator (src/domain/scheduler.py)

The task/calendar repositories are external collaborators; the embedding
records the calls the scheduler makes against the calendar repository as a
trace of `RepoCall`s, and takes the repository's answers (`repo_tasks` for
`get_tasks()`, `repo_events` for `get_events(start, end)`) as arguments.
`now` is `datetime.now()` in minutes; `now.replace(hour=9, minute=0)` is
`1440 * (now / 1440) + 540`. -/

/-- One call made against the external calendar/task repositories. -/
inductive RepoCall
  | getTasks
  | getEvents (start : Int) (end_ : Int)
  | removeManaged
  | createEvent (e : Event)
deriving DecidableEq, Repr

/-- A scheduling strategy as consumed by the `Scheduler`
(`strategy.schedule(tasks, zones, existing_events)`). -/
def Strategy : Type := List Task → List TimeBlockZone → List Event → List Event

/-- `Scheduler.schedule_tasks`: pulls tasks (empty short-circuits), computes
the planning window, pulls existing events, builds the default DEEP/HIGH
four-hour zone, delegates to the strategy, then removes all managed events
and creates each produced event. Returns the produced events together with
the repository-call trace. -/
def Scheduler.schedule_tasks (strategy : Strategy) (now : Int) (repo_tasks : List Task)
    (repo_events : List Event) (planning_horizon : Int := 7) :
    List Event × List RepoCall :=
  if repo_tasks.isEmpty then ([], [RepoCall.getTasks])
  else
    let start := 1440 * now.fdiv 1440 + 540
    let end_ := start + 1440 * planning_horizon
    let existing_events := repo_events
    let zones : List TimeBlockZone :=
      [{ start := start, end_ := start + 240, zone_type := ZoneType.deep,
         energy_level := EnergyLevel.high, min_duration := 30, buffer_required := 15,
         type := TimeBlockType.zone, events := [] }]
    let scheduled_events := strategy repo_tasks zones existing_events
    (scheduled_events,
      [RepoCall.getTasks, RepoCall.getEvents start end_, RepoCall.removeManaged] ++
        scheduled_events.map RepoCall.createEvent)

/-- `Scheduler.reschedule` with `fixed_events` supplied: removes all managed
events first, builds the default zone seeded with the fixed events, and
returns the strategy's result without writing it back. (The
`fixed_events=None` path of the source raises `NameError` — line 121 of
scheduler.py references `TimeBlockType`, which that module never imports —
so only the supplied-`fixed_events` path is modelled.) -/
def Scheduler.reschedule (strategy : Strategy) (now : Int) (tasks : List Task)
    (fixed_events : List Event) : List Event × List RepoCall :=
  let start := 1440 * now.fdiv 1440 + 540
  let _end := start + 1440 * 7
  let zones : List TimeBlockZone :=
    [{ start := start, end_ := start + 240, zone_type := ZoneType.deep,
       energy_level := EnergyLevel.high, min_duration := 30, buffer_required := 15,
       type := TimeBlockType.zone, events := fixed_events }]
  (strategy tasks zones fixed_events, [RepoCall.removeManaged])

/-! ### Concrete instances used by the claim theorems -/

/-- Shared constraint template: DEEP/HIGH, buffer 15. -/
def cnsD (sp : Bool) (mcd msc : Int) (deps : List String) : TaskConstraints :=
  ⟨ZoneType.deep, EnergyLevel.high, sp, mcd, msc, 15, deps⟩

/-- A DEEP/HIGH zone 09:00–13:00 of day 1 (minutes 1980–2220), minimum
duration 30, buffer 15, no events. -/
def dayZone : TimeBlockZone :=
  ⟨1980, 2220, ZoneType.deep, EnergyLevel.high, 30, 15, TimeBlockType.zone, []⟩

/-- C3: zone 09:00–17:00 with one FIXED event 10:00–11:00 (the scenario of
the claim, minutes from 540). -/
def zoneC3 : TimeBlockZone :=
  ⟨540, 1020, ZoneType.deep, EnergyLevel.high, 30, 15, TimeBlockType.zone,
    [⟨"F1", 600, 660, "Mtg", TimeBlockType.fixed, 0⟩]⟩

/-- C3 (amended): the repository's own test scenario — the FIXED event spans
09:00–11:00. -/
def zoneC3b : TimeBlockZone :=
  ⟨540, 1020, ZoneType.deep, EnergyLevel.high, 30, 15, TimeBlockType.zone,
    [⟨"F2", 540, 660, "Mtg", TimeBlockType.fixed, 0⟩]⟩

/-- C3: 30-minute DEEP/HIGH task, `required_buffer` 15, due at 17:00. -/
def taskC3 : Task := ⟨"t3", "T3", 30, 1020, "p", 1, cnsD false 30 1 []⟩

/-- C4: zone 09:00–10:00 (minutes 540–600) with no events. -/
def zoneC4 : TimeBlockZone :=
  ⟨540, 600, ZoneType.deep, EnergyLevel.high, 30, 15, TimeBlockType.zone, []⟩

/-- C4: 120-minute task due at minute 600; the slot scan bound is
`min(due_date, end) = 600`. -/
def taskC4 : Task := ⟨"t4", "T4", 120, 600, "p", 1, cnsD false 30 1 []⟩

/-- C1: a FIXED event occupying 09:00–12:00 of day 1. -/
def eventC1F : Event := ⟨"F", 1980, 2160, "Fixed mtg", TimeBlockType.fixed, 0⟩

/-- C1: task `D`, 60 min, no dependencies (forced onto day 2 by the fixed
event). -/
def taskC1D : Task := ⟨"D", "Task D", 60, 5000, "p", 1, cnsD false 30 1 []⟩

/-- C1: splittable task `E`, 45 min (its single chunk lands on day 1 after
the fixed event). -/
def taskC1E : Task := ⟨"E", "Task E", 45, 6000, "p", 2, cnsD true 45 1 []⟩

/-- C1: task `T`, 30 min, depends on `D`. -/
def taskC1T : Task := ⟨"T", "Task T", 30, 7000, "p", 3, cnsD false 30 1 ["D"]⟩

/-- C1: the full schedule of the counterexample run. -/
def resC1 : List Event := schedule [taskC1D, taskC1E, taskC1T] [dayZone] [eventC1F]

/-- C2: existing MANAGED event 08:35–08:50 of day 1 demanding a 15-minute
buffer. -/
def eventC2A : Event := ⟨"A", 1955, 1970, "A mtg", TimeBlockType.managed, 15⟩

/-- C2: existing MANAGED event 08:00–08:30 of day 1 (the last element of the
existing-events list, hence the event the placement rule measures from). -/
def eventC2L : Event := ⟨"L", 1920, 1950, "L mtg", TimeBlockType.managed, 0⟩

/-- C2: 60-minute DEEP/HIGH task with `required_buffer` 15. -/
def taskC2 : Task := ⟨"T2", "Task T2", 60, 5000, "p", 1, cnsD false 30 1 []⟩

/-- C2: the full schedule of the counterexample run. -/
def resC2 : List Event := schedule [taskC2] [dayZone] [eventC2A, eventC2L]

/-- C7: task `A7` depending on `B7`. -/
def taskC7A : Task := ⟨"A7", "TA", 60, 5000, "p", 1, cnsD false 30 1 ["B7"]⟩

/-- C7: task `B7` depending on `A7`. -/
def taskC7B : Task := ⟨"B7", "TB", 60, 5000, "p", 2, cnsD false 30 1 ["A7"]⟩

/-- C8 witness data: splittable 60-minute task, `min_chunk_duration` 30,
`max_split_count` 2. -/
def taskC8 : Task := ⟨"E2", "Task E2", 60, 6000, "p", 1, cnsD true 30 2 []⟩

/-- C5: 60-minute DEEP/HIGH task that the default zone accommodates. -/
def taskC5 : Task := ⟨"t5", "T5", 60, 100000, "p", 1, cnsD false 30 1 []⟩

/-- C9 witness data: an arbitrary DEEP/HIGH zone. -/
def zoneC9 : TimeBlockZone :=
  ⟨540, 780, ZoneType.deep, EnergyLevel.high, 30, 15, TimeBlockType.zone, []⟩

/-- C1: the event produced for task `D` — day 2, 09:00–10:00. -/
def eventC1Dres : Event := ⟨"D", 3420, 3480, "Task D", TimeBlockType.managed, 15⟩

/-- C1: the chunk event produced for task `E` — day 1, 12:15–13:00. -/
def eventC1Eres : Event :=
  ⟨"E_chunk_1", 2175, 2220, "Task E (Part 1)", TimeBlockType.managed, 15⟩

/-- C1: the event produced for task `T` — day 2, 09:00–09:30, overlapping the
event of its dependency `D`. -/
def eventC1Tres : Event := ⟨"T", 3420, 3450, "Task T", TimeBlockType.managed, 15⟩

/-- C2: the event produced for task `T2` — day 1, 09:00–10:00, only 10
minutes after `eventC2A` ends. -/
def eventC2Tres : Event := ⟨"T2", 1980, 2040, "Task T2", TimeBlockType.managed, 15⟩

/-! ### Reference-cell model of the strategy (C10)

Python lists are heap objects: `SequenceBasedStrategy.schedule` receives
references to the caller's `tasks` and `existing_events` lists and to each
supplied zone template's `events` list. To make "the strategy never mutates
its arguments" a real statement, this section re-expresses the strategy over
an explicit store of list cells: every Python list object is a cell
(`tasks`, `existing_events` and each zone's `events` list are caller cells),
`.copy()` and list literals allocate fresh cells, and
`.append`/`.extend`/`.remove` write to the cell they are invoked on.
`Event`, `Task` and zone objects undergo no attribute assignment anywhere in
the strategy, so they remain plain values (a zone holds the *reference* of
its events list). A cell index is a `Nat`; allocation appends a cell, so the
caller's cells are exactly the indices below the initial store lengths, and
the frame theorem states that the store restricted to those indices is
unchanged by a run. -/

/-- A heap of Python list objects: event-list cells and task-list cells. -/
structure Store where
  evCells : List (List Event)
  taskCells : List (List Task)
deriving DecidableEq, Repr

/-- Allocate a fresh event-list cell (a `.copy()` or a list literal). -/
def Store.allocEv (σ : Store) (l : List Event) : Nat × Store :=
  (σ.evCells.length, ⟨σ.evCells ++ [l], σ.taskCells⟩)

/-- Read an event-list cell. -/
def Store.readEv (σ : Store) (r : Nat) : List Event := σ.evCells.getD r []

/-- Overwrite an event-list cell (an in-place `.append`/`.extend`). -/
def Store.writeEv (σ : Store) (r : Nat) (l : List Event) : Store :=
  ⟨σ.evCells.set r l, σ.taskCells⟩

/-- Allocate a fresh task-list cell. -/
def Store.allocTask (σ : Store) (l : List Task) : Nat × Store :=
  (σ.taskCells.length, ⟨σ.evCells, σ.taskCells ++ [l]⟩)

/-- Read a task-list cell. -/
def Store.readTask (σ : Store) (r : Nat) : List Task := σ.taskCells.getD r []

/-- Overwrite a task-list cell (an in-place `.remove`). -/
def Store.writeTask (σ : Store) (r : Nat) (l : List Task) : Store :=
  ⟨σ.evCells, σ.taskCells.set r l⟩

/-- A `TimeBlockZone` object whose `events` attribute is a reference to an
event-list cell. -/
structure TimeBlockZoneRef where
  start : Int
  end_ : Int
  zone_type : ZoneType
  energy_level : EnergyLevel
  min_duration : Int
  buffer_required : Int
  type : TimeBlockType := TimeBlockType.zone
  eventsRef : Nat
deriving DecidableEq, Repr

/-- The zone value seen through the store (attribute reads). -/
def TimeBlockZoneRef.deref (z : TimeBlockZoneRef) (σ : Store) : TimeBlockZone :=
  ⟨z.start, z.end_, z.zone_type, z.energy_level, z.min_duration, z.buffer_required,
    z.type, σ.readEv z.eventsRef⟩

/-- Zone sort test, `key=lambda z: z.start`. -/
def zoneRefLe (a b : TimeBlockZoneRef) : Bool := decide (a.start ≤ b.start)

/-- `_try_schedule_task` over the store: reads the shared events cell, and on
success appends the new event to it in place. -/
def try_schedule_task_ref (task : Task) :
    List TimeBlockZoneRef → Nat → List String → Store → Bool × List String × Store
  | [], _, ids, σ => (false, ids, σ)
  | z :: zs, eventsRef, ids, σ =>
    if z.zone_type ≠ task.constraints.zone_type then
      try_schedule_task_ref task zs eventsRef ids σ
    else
      let events := σ.readEv eventsRef
      let current_time :=
        match events.getLast? with
        | some last_event =>
          max z.start (last_event.end_ +
            max task.constraints.required_buffer last_event.buffer_required)
        | none => z.start
      if current_time + task.duration ≤ z.end_ then
        match find_conflicts task current_time (Block.zone (z.deref σ)) with
        | none =>
          let ev : Event :=
            { id := task.id
              start := current_time
              end_ := current_time + task.duration
              title := task.title
              type := TimeBlockType.managed
              buffer_required := task.constraints.required_buffer }
          (true, insertId task.id ids, σ.writeEv eventsRef (events ++ [ev]))
        | some _ => try_schedule_task_ref task zs eventsRef ids σ
      else try_schedule_task_ref task zs eventsRef ids σ

/-- The chunk-iteration zone scan over the store (the slot search reads only
the private `current_events` copy and the zone's bounds). -/
def firstChunkSlot_ref (task : Task) (σ : Store) (current_events : List Event)
    (chunk_duration : Int) : List TimeBlockZoneRef → Option Int
  | [] => none
  | z :: zs =>
    if z.zone_type ≠ task.constraints.zone_type then
      firstChunkSlot_ref task σ current_events chunk_duration zs
    else
      match find_available_slots_with_duration (z.deref σ) current_events chunk_duration
          task.constraints.required_buffer with
      | [] => firstChunkSlot_ref task σ current_events chunk_duration zs
      | (slot_start, _) :: _ => some slot_start

/-- The chunk loop of `_try_schedule_split_task` over the store: each placed
chunk is appended in place to the private `current_events` cell and to the
`task_events` cell. The first component is `none` exactly on the source's
mid-loop `return False` (no slot for a chunk); otherwise it carries the
final `remaining_duration`. -/
def split_sched_loop_ref (task : Task) (sorted_zones : List TimeBlockZoneRef)
    (optimal : Int) :
    Nat → Int → Int → Nat → Nat → Store → Option Int × Store
  | 0, remaining, _, _, _, σ => (some remaining, σ)
  | fuel + 1, remaining, chunk_count, ceRef, teRef, σ =>
    if remaining > 0 then
      let chunk_duration := min remaining optimal
      match firstChunkSlot_ref task σ (σ.readEv ceRef) chunk_duration sorted_zones with
      | none => (none, σ)
      | some slot_start =>
        let ev := chunkEvent task chunk_count slot_start chunk_duration
        let σ1 := σ.writeEv ceRef (σ.readEv ceRef ++ [ev])
        let σ2 := σ1.writeEv teRef (σ1.readEv teRef ++ [ev])
        split_sched_loop_ref task sorted_zones optimal fuel (remaining - chunk_duration)
          (chunk_count + 1) ceRef teRef σ2
    else (some remaining, σ)

/-- `_try_schedule_split_task` over the store: allocates the private
`current_events` copy and the `task_events` list, runs the chunk loop, and on
success extends the shared events cell with the accumulated chunk events. -/
def try_schedule_split_task_ref (task : Task) (zones : List TimeBlockZoneRef)
    (eventsRef : Nat) (ids : List String) (σ : Store) : Bool × List String × Store :=
  let (ceRef, σ1) := σ.allocEv (σ.readEv eventsRef)
  let (teRef, σ2) := σ1.allocEv []
  let sorted_zones := sortLe zoneRefLe zones
  let optimal_chunk_size :=
    max (min (task.duration.fdiv 2) 120) task.constraints.min_chunk_duration
  match split_sched_loop_ref task sorted_zones optimal_chunk_size
      task.constraints.max_split_count.toNat task.duration 0 ceRef teRef σ2 with
  | (none, σ3) => (false, ids, σ3)
  | (some remaining, σ3) =>
    if remaining ≤ 0 then
      (true, insertId task.id ids,
        σ3.writeEv eventsRef (σ3.readEv eventsRef ++ σ3.readEv teRef))
    else (false, ids, σ3)

/-- The scheduling loop over the store: reads the remaining-tasks cell each
iteration and removes the placed task from it in place. -/
def scheduleLoop_ref (all_zones : List TimeBlockZoneRef) :
    Nat → Nat → Nat → List String → Store → List String × Store
  | 0, _, _, ids, σ => (ids, σ)
  | fuel + 1, remainingRef, eventsRef, ids, σ =>
    let remaining := σ.readTask remainingRef
    match sortLe taskLe (availableTasks remaining ids) with
    | [] => (ids, σ)
    | task :: _ =>
      let attempt :=
        if task.constraints.is_splittable then
          try_schedule_split_task_ref task all_zones eventsRef ids σ
        else
          try_schedule_task_ref task all_zones eventsRef ids σ
      match attempt with
      | (true, ids', σ') =>
        let σ'' := σ'.writeTask remainingRef ((σ'.readTask remainingRef).erase task)
        scheduleLoop_ref all_zones fuel remainingRef eventsRef ids' σ''
      | (false, _, σ') => (ids, σ')

/-- One day's worth of multi-day zone copies: every constructed zone gets a
freshly allocated empty events cell (`events=[]`). -/
def allocZoneCopies (day_floor : Int) :
    List TimeBlockZoneRef → Store → List TimeBlockZoneRef × Store
  | [], σ => ([], σ)
  | zone :: rest, σ =>
    let (r, σ1) := σ.allocEv []
    let z' : TimeBlockZoneRef :=
      { start := day_floor + zone.start.emod 1440
        end_ := day_floor + zone.end_.emod 1440
        zone_type := zone.zone_type
        energy_level := zone.energy_level
        min_duration := zone.min_duration
        buffer_required := zone.buffer_required
        type := TimeBlockType.zone
        eventsRef := r }
    let (zs, σ2) := allocZoneCopies day_floor rest σ1
    (z' :: zs, σ2)

/-- The day recursion of `_create_multi_day_zones` over the store. -/
def createDays (base : List TimeBlockZoneRef) (start_date : Int) :
    Nat → Nat → Store → List TimeBlockZoneRef × Store
  | 0, _, σ => ([], σ)
  | d + 1, day, σ =>
    let day_start := start_date + 1440 * (day : Int)
    let (zs1, σ1) := allocZoneCopies (1440 * day_start.fdiv 1440) base σ
    let (zs2, σ2) := createDays base start_date d (day + 1) σ1
    (zs1 ++ zs2, σ2)

/-- `_create_multi_day_zones` over the store. -/
def create_multi_day_zones_ref (base_zones : List TimeBlockZoneRef) (days : Nat)
    (σ : Store) : List TimeBlockZoneRef × Store :=
  match base_zones with
  | [] => ([], σ)
  | z0 :: _ => createDays base_zones z0.start days 0 σ

/-- `SequenceBasedStrategy.schedule` over the store: copies the inputs into
fresh cells, projects the zones (fresh empty event cells), runs the loop and
returns the filtered MANAGED events (a fresh list value, as the source's
list comprehension) together with the final store. -/
def schedule_ref (tasksRef : Nat) (zones : List TimeBlockZoneRef) (existingRef : Nat)
    (σ : Store) : List Event × Store :=
  if zones.isEmpty then ([], σ)
  else
    let (eventsRef, σ1) := σ.allocEv (σ.readEv existingRef)
    let (remainingRef, σ2) := σ1.allocTask (σ1.readTask tasksRef)
    let (all_zones, σ3) := create_multi_day_zones_ref zones 7 σ2
    let (_, σ4) := scheduleLoop_ref all_zones (σ3.readTask remainingRef).length
      remainingRef eventsRef [] σ3
    ((σ4.readEv eventsRef).filter (fun e => decide (e.type = TimeBlockType.managed)), σ4)

/-- The caller's cells — the indices below the initial store lengths — are
intact in `σ`. -/
def Preserves (σ₀ σ : Store) : Prop :=
  σ.evCells.take σ₀.evCells.length = σ₀.evCells ∧
  σ.taskCells.take σ₀.taskCells.length = σ₀.taskCells

/-! ## Theorems -/

/-- Any fuel at least `(end_time - current).toNat` yields the result of the
unbounded scan: the fuel choice in `find_available_slot` is not a semantic
truncation. -/
theorem findSlotLoop_fuel (task : Task) (time_block : Block) (end_time : Int) :
    ∀ fuel fuel' current, (end_time - current).toNat ≤ fuel →
      (end_time - current).toNat ≤ fuel' →
      findSlotLoop task time_block end_time fuel current =
        findSlotLoop task time_block end_time fuel' current := by
  intro fuel
  induction fuel with
  | zero =>
    intro fuel' current h h'
    cases fuel' with
    | zero => rfl
    | succ n =>
      have hc : ¬ current < end_time := by omega
      simp [findSlotLoop, hc]
  | succ n ih =>
    intro fuel' current h h'
    cases fuel' with
    | zero =>
      have hc : ¬ current < end_time := by omega
      simp [findSlotLoop, hc]
    | succ m =>
      simp only [findSlotLoop]
      by_cases hc : current < end_time
      · simp only [hc, if_true]
        by_cases hf : find_conflicts task current time_block = none
        · simp [hf]
        · simp only [hf, if_false]
          exact ih m (current + 15) (by omega) (by omega)
      · simp [hc]

theorem mem_insertLe {α : Type} (le : α → α → Bool) (x a : α) (l : List α) :
    x ∈ insertLe le a l ↔ x = a ∨ x ∈ l := by
  induction l with
  | nil => simp [insertLe]
  | cons y ys ih =>
    simp only [insertLe]
    by_cases h : le a y = true
    · simp [h]
    · simp only [Bool.not_eq_true] at h
      simp [h, ih]
      tauto

theorem mem_sortLe {α : Type} (le : α → α → Bool) (x : α) (l : List α) :
    x ∈ sortLe le l ↔ x ∈ l := by
  induction l with
  | nil => simp [sortLe]
  | cons y ys ih =>
    simp only [sortLe, List.foldr] at ih ⊢
    rw [mem_insertLe, ih, List.mem_cons]

/-- Any fuel of at least `remaining.length` yields the same result: the
wrapper's fuel choice in `schedule` is not a semantic truncation of the
source's `while remaining_tasks:` loop. -/
theorem scheduleLoop_fuel (all_zones : List TimeBlockZone) :
    ∀ fuel fuel' remaining events scheduled_task_ids,
      remaining.length ≤ fuel → remaining.length ≤ fuel' →
      scheduleLoop all_zones fuel remaining events scheduled_task_ids =
        scheduleLoop all_zones fuel' remaining events scheduled_task_ids := by
  intro fuel
  induction fuel with
  | zero =>
    intro fuel' remaining events ids h h'
    have hnil : remaining = [] := List.eq_nil_of_length_eq_zero (by omega)
    subst hnil
    cases fuel' with
    | zero => rfl
    | succ m => simp [scheduleLoop, availableTasks, sortLe]
  | succ n ih =>
    intro fuel' remaining events ids h h'
    cases fuel' with
    | zero =>
      have hnil : remaining = [] := List.eq_nil_of_length_eq_zero (by omega)
      subst hnil
      simp [scheduleLoop, availableTasks, sortLe]
    | succ m =>
      simp only [scheduleLoop]
      cases ha : sortLe taskLe (availableTasks remaining ids) with
      | nil => rfl
      | cons task rest =>
        have htask : task ∈ availableTasks remaining ids := by
          have hm : task ∈ sortLe taskLe (availableTasks remaining ids) := by
            rw [ha]; exact List.mem_cons_self _ _
          exact (mem_sortLe taskLe task _).mp hm
        have hrem : task ∈ remaining := List.mem_of_mem_filter htask
        have hlen : (remaining.erase task).length = remaining.length - 1 :=
          List.length_erase_of_mem hrem
        have hpos : 0 < remaining.length := List.length_pos.mpr (List.ne_nil_of_mem hrem)
        dsimp only
        generalize (if task.constraints.is_splittable = true then
            try_schedule_split_task task all_zones events ids
          else try_schedule_task task all_zones events ids) = att
        obtain ⟨ok, ev2, ids2⟩ := att
        cases ok with
        | false => rfl
        | true => exact ih m (remaining.erase task) ev2 ids2 (by omega) (by omega)

/-- On `some` results the scan loop returns a candidate at or after the
current position and strictly before the scan bound. -/
theorem findSlotLoop_le (task : Task) (time_block : Block) (end_time : Int) :
    ∀ fuel current r, findSlotLoop task time_block end_time fuel current = some r →
      current ≤ r ∧ r < end_time := by
  intro fuel
  induction fuel with
  | zero => intro current r h; simp [findSlotLoop] at h
  | succ n ih =>
    intro current r h
    simp only [findSlotLoop] at h
    by_cases hc : current < end_time
    · simp only [hc, if_true] at h
      by_cases hf : find_conflicts task current time_block = none
      · simp only [hf, if_true, Option.some.injEq] at h
        omega
      · simp only [hf, if_false] at h
        have := ih (current + 15) r h
        omega
    · simp [hc] at h

/-- C3 — counterexample. The claim asserts that with a single FIXED event
10:00–11:00 and a 30-minute task with `required_buffer` 15,
`find_available_slot` starting at 09:00 returns 11:15. The code returns
09:00: the 30-minute task ending 09:30 leaves a 30-minute gap to the event,
satisfying the 15-minute buffer, so the very first candidate is free
(09:00 = minute 540, 11:15 = minute 675). -/
theorem C3_counterexample :
    find_available_slot taskC3 (Block.zone zoneC3) 540 = some 540 ∧
      (some (540 : Int) ≠ some (675 : Int)) := by
  constructor
  · decide
  · decide

/-- C3 — amended. With the FIXED event 10:00–11:00 the scan returns 09:00
(the task fits before the event with its buffer); the 11:15 answer of the
claim arises for the repository's own test scenario, where the FIXED event
spans 09:00–11:00: there the first candidate clearing the event and the
15-minute buffer is 11:15, not 11:00 (buffer violation) and not any earlier
time (direct overlap). -/
theorem C3_amended :
    find_available_slot taskC3 (Block.zone zoneC3) 540 = some 540 ∧
      find_available_slot taskC3 (Block.zone zoneC3b) 540 = some 675 := by
  constructor
  · decide
  · decide

/-- C4 — counterexample. `find_available_slot` does not stop before a
candidate whose end exceeds `min(task.due_date, time_block.end)`: the loop
guard only requires the candidate itself to lie before the bound. For a
120-minute task in a 09:00–10:00 zone with due date 10:00 the scan returns
09:00, whose end 11:00 exceeds the bound 10:00. -/
theorem C4_counterexample :
    find_available_slot taskC4 (Block.zone zoneC4) 540 = some 540 ∧
      ¬(540 + taskC4.duration ≤ min taskC4.due_date (Block.zone zoneC4).end_) := by
  constructor
  · decide
  · decide

/-- C4 — amended. Whenever `find_available_slot` returns `some t`, then
`t ≥ max(start_from, time_block.start)` and `t < min(task.due_date,
time_block.end)`. The claim's stronger bound `t + task.duration ≤
min(task.due_date, time_block.end)` is not enforced (see the
counterexample): the scan stops at the first candidate at or past the bound,
not before a candidate whose end would exceed it. -/
theorem C4_amended (task : Task) (time_block : Block) (start_from r : Int)
    (h : find_available_slot task time_block start_from = some r) :
    max start_from time_block.start ≤ r ∧ r < min task.due_date time_block.end_ := by
  simp only [find_available_slot] at h
  by_cases he : (!time_block.events.isEmpty) = true
  · rw [if_pos he] at h
    cases hle : last_event_before time_block.events (max start_from time_block.start) with
    | none =>
      simp only [hle] at h
      exact findSlotLoop_le task time_block _ _ _ _ h
    | some le =>
      simp only [hle] at h
      have hb := findSlotLoop_le task time_block _ _ _ _ h
      exact ⟨le_trans (le_max_left _ _) hb.1, hb.2⟩
  · rw [if_neg he] at h
    exact findSlotLoop_le task time_block _ _ _ _ h

/-- C4 — witness for the amended bound at the C3 scenario. -/
theorem C4_amended_witness :
    max (540 : Int) (Block.zone zoneC3).start ≤ 540 ∧
      (540 : Int) < min taskC3.due_date (Block.zone zoneC3).end_ :=
  C4_amended taskC3 (Block.zone zoneC3) 540 540 (by decide)

/-- C7 — confirmed. Two tasks with mutually circular dependencies deadlock:
the availability filter is empty on the first iteration, the loop aborts,
and no managed events are produced. Termination on every input is witnessed
by `schedule` being a total Lean function: its loops are structural
recursions whose fuel (`scheduleLoop_fuel`, `findSlotLoop_fuel`) provably
does not truncate the source's loops. -/
theorem C7_deadlock : schedule [taskC7A, taskC7B] [dayZone] [] = [] := by decide

/-- Python floor division agrees with the rational floor for positive
divisors. -/
theorem fdiv_eq_floor (a b : ℤ) (hb : 0 < b) : a.fdiv b = ⌊(a : ℚ) / (b : ℚ)⌋ := by
  have hmod := Int.fdiv_add_fmod a b
  have h0 : 0 ≤ a.fmod b := Int.fmod_nonneg' a hb
  have h1 : a.fmod b < b := Int.fmod_lt_of_pos a hb
  have hbq : (0 : ℚ) < (b : ℚ) := by exact_mod_cast hb
  symm
  rw [Int.floor_eq_iff]
  constructor
  · rw [le_div_iff₀ hbq]
    have : (a.fdiv b) * b ≤ a := by nlinarith [hmod, h0]
    exact_mod_cast this
  · rw [div_lt_iff₀ hbq]
    have : a < (a.fdiv b + 1) * b := by nlinarith [hmod, h1]
    exact_mod_cast this

/-- Python ceiling division `-(-a // b)` agrees with the rational ceiling for
positive divisors. -/
theorem pyCeilDiv_eq_ceil (a b : ℤ) (hb : 0 < b) : pyCeilDiv a b = ⌈(a : ℚ) / (b : ℚ)⌉ := by
  unfold pyCeilDiv
  rw [fdiv_eq_floor _ _ hb]
  have : ((-a : ℤ) : ℚ) / (b : ℚ) = -((a : ℚ) / (b : ℚ)) := by push_cast; ring
  rw [this, Int.floor_neg, neg_neg]

/-- C6 — confirmed. `Task.split` of a splittable task with a valid
`chunk_sizes` list returns children whose durations are exactly the chunk
sizes (so they sum to the parent's duration), with 1-indexed
`{parentId}_chunk_{i}` ids, `{title} (Part i/N)` titles, `is_splittable`
false, sequence numbers `parent * 1000 + i`, chunk 1 inheriting the parent's
dependencies and chunk `i > 1` depending exactly on the previous chunk; and
any violated precondition makes `split` raise (`Except.error`). -/
theorem C6_split (t : Task) (sizes : List Int) :
    (t.constraints.is_splittable = true →
      (sizes.length : Int) ≤ t.constraints.max_split_count →
      sizes.sum = t.duration →
      (∀ s ∈ sizes, t.constraints.min_chunk_duration ≤ s) →
      ∃ children, t.split sizes = Except.ok children ∧
        children.length = sizes.length ∧
        children.map Task.duration = sizes ∧
        (children.map Task.duration).sum = t.duration ∧
        ∀ (i : Nat) (hi : i < children.length),
          (children.get ⟨i, hi⟩).id = t.id ++ "_chunk_" ++ toString (i + 1) ∧
          (children.get ⟨i, hi⟩).title =
            t.title ++ " (Part " ++ toString (i + 1) ++ "/" ++ toString sizes.length ++ ")" ∧
          (children.get ⟨i, hi⟩).constraints.is_splittable = false ∧
          (children.get ⟨i, hi⟩).sequence_number = t.sequence_number * 1000 + (i + 1) ∧
          (children.get ⟨i, hi⟩).constraints.dependencies =
            (if i = 0 then t.constraints.dependencies
             else [t.id ++ "_chunk_" ++ toString i])) ∧
    (¬(t.constraints.is_splittable = true ∧
        (sizes.length : Int) ≤ t.constraints.max_split_count ∧
        sizes.sum = t.duration ∧
        (∀ s ∈ sizes, t.constraints.min_chunk_duration ≤ s)) →
      ∃ msg, t.split sizes = Except.error msg) := by
  constructor
  · intro hsp hlen hsum hmin
    have h1 : ¬((sizes.length : Int) > t.constraints.max_split_count) := not_lt.mpr hlen
    have h2 : ¬(sizes.sum ≠ t.duration) := by simpa using hsum
    have h3 : ¬(sizes.any (fun size =>
        decide (size < t.constraints.min_chunk_duration)) = true) := by
      simp only [List.any_eq_true, decide_eq_true_eq, not_exists, not_and, not_lt]
      intro s hs
      exact hmin s hs
    have heq : (sizes.enum).map
          (Task.duration ∘ fun p => t.mkChunk (p.1 + 1) p.2 sizes.length) = sizes :=
      (List.map_congr_left (fun p _ => rfl)).trans (List.enum_map_snd sizes)
    refine ⟨(sizes.enum).map (fun p => t.mkChunk (p.1 + 1) p.2 sizes.length), ?_, ?_, ?_, ?_, ?_⟩
    · unfold Task.split
      rw [if_neg h1, if_neg h2, if_neg h3, hsp]
      simp
    · simp
    · rw [List.map_map]
      exact heq
    · rw [List.map_map, heq, hsum]
    · intro i hi
      have hi' : i < sizes.length := by simpa using hi
      have hget : ((sizes.enum).map (fun p => t.mkChunk (p.1 + 1) p.2 sizes.length)).get
          ⟨i, hi⟩ = t.mkChunk (i + 1) (sizes.get ⟨i, hi'⟩) sizes.length := by
        simp [List.get_eq_getElem, List.getElem_map, List.getElem_enum]
      rw [hget]
      refine ⟨rfl, rfl, rfl, by simp [Task.mkChunk], ?_⟩
      cases i with
      | zero => simp [Task.mkChunk]
      | succ j => simp [Task.mkChunk]
  · intro hfail
    by_cases h1 : (sizes.length : Int) > t.constraints.max_split_count
    · exact ⟨_, by unfold Task.split; rw [if_pos h1]⟩
    · by_cases h2 : sizes.sum ≠ t.duration
      · exact ⟨_, by unfold Task.split; rw [if_neg h1, if_pos h2]⟩
      · by_cases h3 : sizes.any (fun size =>
            decide (size < t.constraints.min_chunk_duration)) = true
        · exact ⟨_, by unfold Task.split; rw [if_neg h1, if_neg h2, if_pos h3]⟩
        · by_cases h4 : t.constraints.is_splittable = true
          · exfalso
            apply hfail
            refine ⟨h4, not_lt.mp h1, not_ne_iff.mp h2, ?_⟩
            intro s hs
            by_contra hlt
            exact h3 (List.any_eq_true.mpr ⟨s, hs, by simpa using hlt⟩)
          · have hb : t.constraints.is_splittable = false := by
              simpa using h4
            refine ⟨"Task is not splittable", ?_⟩
            unfold Task.split
            rw [if_neg h1, if_neg h2, if_neg h3, hb]
            rfl

/-- C6 — witness: splitting the concrete 60-minute splittable task into two
30-minute chunks satisfies every precondition, so the success branch of the
theorem applies. -/
theorem C6_split_witness :
    ∃ children, taskC8.split [30, 30] = Except.ok children ∧
      children.length = ([30, 30] : List Int).length ∧
      children.map Task.duration = [30, 30] ∧
      (children.map Task.duration).sum = taskC8.duration ∧
      ∀ (i : Nat) (hi : i < children.length),
        (children.get ⟨i, hi⟩).id = taskC8.id ++ "_chunk_" ++ toString (i + 1) ∧
        (children.get ⟨i, hi⟩).title =
          taskC8.title ++ " (Part " ++ toString (i + 1) ++ "/" ++
            toString ([30, 30] : List Int).length ++ ")" ∧
        (children.get ⟨i, hi⟩).constraints.is_splittable = false ∧
        (children.get ⟨i, hi⟩).sequence_number = taskC8.sequence_number * 1000 + (i + 1) ∧
        (children.get ⟨i, hi⟩).constraints.dependencies =
          (if i = 0 then taskC8.constraints.dependencies
           else [taskC8.id ++ "_chunk_" ++ toString i]) :=
  (C6_split taskC8 [30, 30]).1 (by decide) (by decide) (by decide)
    (by intro s hs; fin_cases hs <;> decide)

/-- C9 — confirmed (for the meaningful `max_splits ≥ 0` regime; a negative
`max_splits` makes the Python source divide by zero). `calculate_optimal_split`
returns `None` iff the zone list is empty or the duration is nonpositive;
otherwise it returns exactly the metrics of the claim:
`optimal_chunk_count = min(max(1, ceil(td/120)), max_splits+1)`,
`chunk_duration = ceil(td/optimal_chunk_count)`,
`total_buffer_time = (count-1)*15 + count*30`, and
`zone_utilization = min(td/(count*chunk_duration), 1)`. -/
theorem C9_optimal_split (td : Int) (zones : List TimeBlockZone) (mc ms : Int)
    (hms : 0 ≤ ms) :
    (calculate_optimal_split td zones mc ms = none ↔ zones = [] ∨ td ≤ 0) ∧
    (∀ m, calculate_optimal_split td zones mc ms = some m →
      m.optimal_chunk_count = min (max 1 ⌈(td : ℚ) / 120⌉) (ms + 1) ∧
      m.chunk_duration = ⌈(td : ℚ) / ((m.optimal_chunk_count : Int) : ℚ)⌉ ∧
      m.total_buffer_time =
        (m.optimal_chunk_count - 1) * 15 + m.optimal_chunk_count * 30 ∧
      m.zone_utilization =
        min ((td : ℚ) / (((m.optimal_chunk_count * m.chunk_duration : Int)) : ℚ)) 1) := by
  constructor
  · unfold calculate_optimal_split
    by_cases hg : (zones.isEmpty || decide (td ≤ 0)) = true
    · simp only [hg, if_pos]
      simp only [List.isEmpty_iff, Bool.or_eq_true, decide_eq_true_eq] at hg
      simpa using hg
    · simp only [hg]
      simp only [List.isEmpty_iff, Bool.or_eq_true, decide_eq_true_eq] at hg
      push_neg at hg
      simp [hg.1, hg.2]
  · intro m hm
    unfold calculate_optimal_split at hm
    by_cases hg : (zones.isEmpty || decide (td ≤ 0)) = true
    · simp [hg] at hm
    · simp only [hg, if_neg, Bool.false_eq_true, not_false_eq_true] at hm
      simp only [List.isEmpty_iff, Bool.or_eq_true, decide_eq_true_eq] at hg
      push_neg at hg
      have htd : 0 < td := hg.2
      injection hm with hm
      subst hm
      have hocc1 : (1 : Int) ≤ min (max 1 (pyCeilDiv td 120)) (ms + 1) :=
        le_min (le_max_left _ _) (by omega)
      have hoccpos : (0 : Int) < min (max 1 (pyCeilDiv td 120)) (ms + 1) := by omega
      have hceil : pyCeilDiv td 120 = ⌈(td : ℚ) / 120⌉ := by
        have := pyCeilDiv_eq_ceil td 120 (by norm_num)
        simpa using this
      have hcd : pyCeilDiv td (min (max 1 (pyCeilDiv td 120)) (ms + 1)) =
          ⌈(td : ℚ) / ((min (max 1 (pyCeilDiv td 120)) (ms + 1) : Int) : ℚ)⌉ :=
        pyCeilDiv_eq_ceil _ _ hoccpos
      have hcdpos : (0 : Int) < pyCeilDiv td (min (max 1 (pyCeilDiv td 120)) (ms + 1)) := by
        rw [hcd, Int.lt_ceil]
        push_cast
        exact div_pos (by exact_mod_cast htd) (by exact_mod_cast hoccpos)
      have husable : (0 : Int) <
          min (max 1 (pyCeilDiv td 120)) (ms + 1) *
            pyCeilDiv td (min (max 1 (pyCeilDiv td 120)) (ms + 1)) :=
        mul_pos hoccpos hcdpos
      refine ⟨by rw [hceil], by rw [hcd, hceil], by ring, ?_⟩
      simp only [husable, if_pos]

/-- C9 — witness at `total_duration = 300`, `max_splits = 3`: the hypotheses
of the theorem hold and both conjuncts follow. -/
theorem C9_optimal_split_witness :
    (calculate_optimal_split 300 [zoneC9] 60 3 = none ↔ [zoneC9] = [] ∨ (300 : Int) ≤ 0) :=
  (C9_optimal_split 300 [zoneC9] 60 3 (by norm_num)).1

/-- Membership in the scheduled-id set after a Python `set.add`. -/
theorem mem_insertId (x a : String) (ids : List String) :
    x ∈ insertId a ids ↔ x = a ∨ x ∈ ids := by
  unfold insertId
  by_cases h : a ∈ ids
  · simp only [h, if_pos]
    constructor
    · exact Or.inr
    · rintro (rfl | hx)
      · exact h
      · exact hx
  · simp [h, List.mem_cons]

/-- A task passing the dependency-readiness filter is in `remaining` and has
all of its dependencies among the scheduled ids. -/
theorem mem_availableTasks {remaining : List Task} {ids : List String} {t : Task}
    (h : t ∈ availableTasks remaining ids) :
    t ∈ remaining ∧ ∀ d ∈ t.constraints.dependencies, d ∈ ids := by
  unfold availableTasks at h
  have hf := List.mem_filter.mp h
  refine ⟨hf.1, ?_⟩
  intro d hd
  have := List.all_eq_true.mp hf.2 d hd
  simpa using this

/-- Shape of the scheduled-id set after a split attempt: the parent id is
added exactly on success. -/
theorem try_schedule_split_task_ids (task : Task) (zones : List TimeBlockZone)
    (events : List Event) (ids : List String) :
    ((try_schedule_split_task task zones events ids).1 = true →
      (try_schedule_split_task task zones events ids).2.2 = insertId task.id ids) ∧
    ((try_schedule_split_task task zones events ids).1 = false →
      (try_schedule_split_task task zones events ids).2.2 = ids) := by
  cases hsl : split_sched_loop task (sortLe zoneLe zones)
      (max (min (task.duration.fdiv 2) 120) task.constraints.min_chunk_duration)
      task.constraints.max_split_count.toNat task.duration 0 events [] with
  | none => simp [try_schedule_split_task, hsl]
  | some te => simp [try_schedule_split_task, hsl]

/-- Case analysis of a single-block attempt: either it fails with the state
unchanged, or it succeeds by appending exactly one event — whose start is at
least the end of the most recently appended event plus
`max(task.required_buffer, last.buffer_required)` — and adding the task id. -/
theorem try_schedule_task_cases (task : Task) :
    ∀ (zones : List TimeBlockZone) (events : List Event) (ids : List String),
      try_schedule_task task zones events ids = (false, events, ids) ∨
      ∃ e, try_schedule_task task zones events ids = (true, events ++ [e], insertId task.id ids) ∧
        ∀ last_event, events.getLast? = some last_event →
          last_event.end_ +
            max task.constraints.required_buffer last_event.buffer_required ≤ e.start := by
  intro zones
  induction zones with
  | nil => intro events ids; exact Or.inl rfl
  | cons z zs ih =>
    intro events ids
    by_cases hzt : (z.zone_type ≠ task.constraints.zone_type)
    · simpa [try_schedule_task, hzt] using ih events ids
    · cases hl : events.getLast? with
      | none =>
        by_cases hfit : z.start + task.duration ≤ z.end_
        · cases hc : find_conflicts task z.start (Block.zone z) with
          | none =>
            refine Or.inr ⟨⟨task.id, z.start, z.start + task.duration, task.title,
              TimeBlockType.managed, task.constraints.required_buffer⟩, ?_, ?_⟩
            · simp [try_schedule_task, hzt, hl, hfit, hc]
            · intro last_event hle
              exact absurd hle (by simp)
          | some c =>
            simpa [try_schedule_task, hzt, hl, hfit, hc] using ih events ids
        · simpa [try_schedule_task, hzt, hl, hfit] using ih events ids
      | some last_event =>
        by_cases hfit : max z.start (last_event.end_ +
            max task.constraints.required_buffer last_event.buffer_required) +
            task.duration ≤ z.end_
        · cases hc : find_conflicts task (max z.start (last_event.end_ +
              max task.constraints.required_buffer last_event.buffer_required))
              (Block.zone z) with
          | none =>
            refine Or.inr ⟨⟨task.id,
              max z.start (last_event.end_ +
                max task.constraints.required_buffer last_event.buffer_required),
              max z.start (last_event.end_ +
                max task.constraints.required_buffer last_event.buffer_required) +
                task.duration,
              task.title, TimeBlockType.managed, task.constraints.required_buffer⟩, ?_, ?_⟩
            · simp [try_schedule_task, hzt, hl, hfit, hc]
            · intro le' hle'
              injection hle' with hle'
              subst hle'
              exact le_max_right _ _
          | some c =>
            simpa [try_schedule_task, hzt, hl, hfit, hc] using ih events ids
        · simpa [try_schedule_task, hzt, hl, hfit] using ih events ids

/-- C8 — confirmed. When `_try_schedule_split_task` fails, the shared events
accumulator and the scheduled-id set are returned unchanged — the chunk
events accumulated inside the attempt were only appended to the private
`current_events` copy; on success all chunk events are appended to the
accumulator and the parent task's id (not the chunk ids) is added to the
scheduled-id set. -/
theorem C8_split_atomicity (task : Task) (zones : List TimeBlockZone)
    (events : List Event) (ids : List String) :
    ((try_schedule_split_task task zones events ids).1 = false →
      (try_schedule_split_task task zones events ids).2.1 = events ∧
      (try_schedule_split_task task zones events ids).2.2 = ids) ∧
    ((try_schedule_split_task task zones events ids).1 = true →
      (∃ task_events, (try_schedule_split_task task zones events ids).2.1 =
        events ++ task_events) ∧
      (try_schedule_split_task task zones events ids).2.2 = insertId task.id ids) := by
  cases hsl : split_sched_loop task (sortLe zoneLe zones)
      (max (min (task.duration.fdiv 2) 120) task.constraints.min_chunk_duration)
      task.constraints.max_split_count.toNat task.duration 0 events [] with
  | none => simp [try_schedule_split_task, hsl]
  | some te =>
    refine ⟨?_, ?_⟩
    · intro h
      simp [try_schedule_split_task, hsl] at h
    · intro _
      constructor
      · exact ⟨te, by simp [try_schedule_split_task, hsl]⟩
      · simp [try_schedule_split_task, hsl]

/-- C8 — witness: the concrete splittable task is scheduled in two chunks;
the success branch of the atomicity theorem yields the appended-events and
parent-id facts. -/
theorem C8_split_atomicity_witness :
    (∃ task_events, (try_schedule_split_task taskC8 [dayZone] [] []).2.1 =
      ([] : List Event) ++ task_events) ∧
    (try_schedule_split_task taskC8 [dayZone] [] []).2.2 = insertId taskC8.id [] :=
  (C8_split_atomicity taskC8 [dayZone] [] []).2 (by decide)

/-- The scheduling loop only grows the scheduled-id set, and every task id it
adds had all of its dependency ids present at the moment of placement; with
pairwise-distinct task ids, the final id set is therefore
dependency-closed. -/
theorem scheduleLoop_deps_closed (all_zones : List TimeBlockZone) :
    ∀ (fuel : Nat) (remaining : List Task) (events : List Event) (ids : List String),
      (∀ t ∈ remaining, ∀ t' ∈ remaining, t.id = t'.id → t = t') →
      (∀ t ∈ remaining, t.id ∈ ids → ∀ d ∈ t.constraints.dependencies, d ∈ ids) →
      (∀ x ∈ ids, x ∈ (scheduleLoop all_zones fuel remaining events ids).2) ∧
      (∀ t ∈ remaining,
        t.id ∈ (scheduleLoop all_zones fuel remaining events ids).2 →
        ∀ d ∈ t.constraints.dependencies,
          d ∈ (scheduleLoop all_zones fuel remaining events ids).2) := by
  intro fuel
  induction fuel with
  | zero =>
    intro remaining events ids _ hclosed
    exact ⟨fun x hx => hx, hclosed⟩
  | succ n ih =>
    intro remaining events ids huniq hclosed
    simp only [scheduleLoop]
    cases ha : sortLe taskLe (availableTasks remaining ids) with
    | nil => exact ⟨fun x hx => hx, hclosed⟩
    | cons task rest =>
      have htask : task ∈ availableTasks remaining ids := by
        have hm : task ∈ sortLe taskLe (availableTasks remaining ids) := by
          rw [ha]; exact List.mem_cons_self _ _
        exact (mem_sortLe taskLe task _).mp hm
      obtain ⟨hrem, hdeps⟩ := mem_availableTasks htask
      have hids : ((if task.constraints.is_splittable = true then
            try_schedule_split_task task all_zones events ids
          else try_schedule_task task all_zones events ids)).1 = true →
          ((if task.constraints.is_splittable = true then
            try_schedule_split_task task all_zones events ids
          else try_schedule_task task all_zones events ids)).2.2 = insertId task.id ids := by
        by_cases hsp : task.constraints.is_splittable = true
        · simpa [hsp] using (try_schedule_split_task_ids task all_zones events ids).1
        · simp only [hsp, if_neg, Bool.false_eq_true, not_false_eq_true]
          intro h
          rcases try_schedule_task_cases task all_zones events ids with hcase | ⟨e, hcase, _⟩
          · rw [hcase] at h; simp at h
          · rw [hcase]
      dsimp only
      generalize hatt : (if task.constraints.is_splittable = true then
          try_schedule_split_task task all_zones events ids
        else try_schedule_task task all_zones events ids) = att
      rw [hatt] at hids
      obtain ⟨ok, ev2, ids2⟩ := att
      cases ok with
      | false => exact ⟨fun x hx => hx, hclosed⟩
      | true =>
        have hids2 : ids2 = insertId task.id ids := hids rfl
        subst hids2
        have huniq' : ∀ t ∈ remaining.erase task, ∀ t' ∈ remaining.erase task,
            t.id = t'.id → t = t' := fun t ht t' ht' =>
          huniq t (List.mem_of_mem_erase ht) t' (List.mem_of_mem_erase ht')
        have hclosed' : ∀ t ∈ remaining.erase task, t.id ∈ insertId task.id ids →
            ∀ d ∈ t.constraints.dependencies, d ∈ insertId task.id ids := by
          intro t ht hid d hd
          rcases (mem_insertId t.id task.id ids).mp hid with heq | hin
          · have : t = task := huniq t (List.mem_of_mem_erase ht) task hrem heq
            subst this
            exact (mem_insertId d t.id ids).mpr (Or.inr (hdeps d hd))
          · exact (mem_insertId d task.id ids).mpr
              (Or.inr (hclosed t (List.mem_of_mem_erase ht) hin d hd))
        obtain ⟨hmono, hfinal⟩ := ih (remaining.erase task) ev2 (insertId task.id ids)
          huniq' hclosed'
        refine ⟨?_, ?_⟩
        · intro x hx
          exact hmono x ((mem_insertId x task.id ids).mpr (Or.inr hx))
        · intro t ht hid d hd
          by_cases hteq : t = task
          · subst hteq
            exact hmono d ((mem_insertId d t.id ids).mpr (Or.inr (hdeps d hd)))
          · exact hfinal t ((List.mem_erase_of_ne hteq).mpr ht) hid d hd

/-- C1 — counterexample. Dependency ordering fails on the code: with a FIXED
event 09:00–12:00 on day 1, task `D` (60 min) is pushed to day 2
09:00–10:00; the splittable task `E` then fits its single chunk into the day
1 gap 12:15–13:00 via the slot search; finally `T`, which depends on `D`, is
placed from `max(zone.start, lastAppended.end + buffer)` — measured only
against `E`'s chunk, the most recently appended event — landing on day 2 at
09:00, strictly before its dependency's event ends (it even overlaps it):
`scheduled(D).end = 3480 > 3420 = scheduled(T).start`. -/
theorem C1_counterexample :
    resC1 = [eventC1Dres, eventC1Eres, eventC1Tres] ∧
    "D" ∈ taskC1T.constraints.dependencies ∧
    eventC1Dres.id = taskC1D.id ∧ eventC1Tres.id = taskC1T.id ∧
    eventC1Tres.start < eventC1Dres.end_ := by
  refine ⟨by decide, by decide, by decide, by decide, by decide⟩

/-- C1 — amended. What the scheduling pass does guarantee about dependencies
is ordering of *placement*, not of *time*: a task is attempted only when
every dependency id is already in `scheduled_task_ids`, so (for
pairwise-distinct task ids) the final scheduled-id set is dependency-closed
— every placed task's dependencies were themselves placed (earlier in the
pass). The temporal bound `scheduled(D).end ≤ scheduled(T).start` does not
hold (see the counterexample). -/
theorem C1_amended (tasks : List Task) (zones : List TimeBlockZone)
    (existing : List Event)
    (huniq : ∀ t ∈ tasks, ∀ t' ∈ tasks, t.id = t'.id → t = t') :
    ∀ t ∈ tasks,
      t.id ∈ (scheduleLoop (create_multi_day_zones zones 7)
        tasks.length tasks existing []).2 →
      ∀ d ∈ t.constraints.dependencies,
        d ∈ (scheduleLoop (create_multi_day_zones zones 7)
          tasks.length tasks existing []).2 :=
  (scheduleLoop_deps_closed (create_multi_day_zones zones 7) tasks.length tasks existing []
    huniq (by simp)).2

/-- C1 — witness for the amended closure at the counterexample data: `T` was
placed, so its dependency `"D"` is in the final scheduled-id set. -/
theorem C1_amended_witness :
    "D" ∈ (scheduleLoop (create_multi_day_zones [dayZone] 7) ([taskC1D, taskC1E, taskC1T]).length
      [taskC1D, taskC1E, taskC1T] [eventC1F] []).2 :=
  C1_amended [taskC1D, taskC1E, taskC1T] [dayZone] [eventC1F] (by decide)
    taskC1T (by decide) (by decide) "D" (by decide)

/-- C2 — counterexample. Buffer enforcement over chronologically adjacent
MANAGED events fails: with existing MANAGED events `A` (08:35–08:50, buffer
15) and `L` (08:00–08:30, listed last), the new task starts at
`max(zone.start 09:00, L.end + 15 = 08:45) = 09:00` — the placement rule
measures only from the most recently appended event `L`, not from the
chronologically adjacent `A` — leaving a 10-minute gap to `A`'s end where
`max(A.buffer_required, task.required_buffer) = 15` is required. -/
theorem C2_counterexample :
    sortLe eventLe resC2 = [eventC2L, eventC2A, eventC2Tres] ∧
    eventC2A.type = TimeBlockType.managed ∧
    eventC2Tres.type = TimeBlockType.managed ∧
    eventC2Tres.id = taskC2.id ∧
    eventC2Tres.start - eventC2A.end_ <
      max eventC2A.buffer_required taskC2.constraints.required_buffer := by
  refine ⟨by decide, by decide, by decide, by decide, by decide⟩

/-- C2 — amended. The buffer the single-block placement does enforce is
against the most recently appended event only: a successful
`_try_schedule_task` appends exactly one event whose start is at least
`last.end + max(task.required_buffer, last.buffer_required)` for the last
event `last` of the accumulator. Chronologically adjacent pairs in general
(and the gap before a zone's first committed event in the split slot search)
are not protected (see the counterexample). -/
theorem C2_amended (task : Task) (zones : List TimeBlockZone) (events : List Event)
    (ids : List String) (ev' : List Event) (ids' : List String)
    (h : try_schedule_task task zones events ids = (true, ev', ids')) :
    ∃ e, ev' = events ++ [e] ∧ ids' = insertId task.id ids ∧
      ∀ last_event, events.getLast? = some last_event →
        last_event.end_ + max task.constraints.required_buffer last_event.buffer_required
          ≤ e.start := by
  rcases try_schedule_task_cases task zones events ids with hcase | ⟨e, hcase, hbuf⟩
  · rw [hcase] at h
    simp at h
  · rw [hcase] at h
    injection h with h1 h2
    injection h2 with h2 h3
    exact ⟨e, h2.symm, h3.symm, hbuf⟩

/-- C2 — witness for the amended buffer bound at the counterexample inputs:
the new event starts at 09:00, at least 15 minutes after the end of the most
recently appended event `L` (08:30). -/
theorem C2_amended_witness :
    ∃ e, [eventC2A, eventC2L, eventC2Tres] = [eventC2A, eventC2L] ++ [e] ∧
      (["T2"] : List String) = insertId taskC2.id [] ∧
      ∀ last_event, ([eventC2A, eventC2L] : List Event).getLast? = some last_event →
        last_event.end_ + max taskC2.constraints.required_buffer last_event.buffer_required
          ≤ e.start :=
  C2_amended taskC2 [dayZone] [eventC2A, eventC2L] [] [eventC2A, eventC2L, eventC2Tres]
    ["T2"] (by decide)

/-- C5 — counterexample. `Scheduler.reschedule` does not follow the
wipe-then-rewrite persistence pattern of `schedule_tasks`: it issues the
`remove_managed_events` call (before running the strategy) but never calls
`create_event` — here the run returns one newly produced event while the
repository-call trace contains no `createEvent` at all. -/
theorem C5_counterexample :
    (Scheduler.reschedule schedule 1000 [taskC5] []).2 = [RepoCall.removeManaged] ∧
    (Scheduler.reschedule schedule 1000 [taskC5] []).1.length = 1 := by
  refine ⟨by decide, by decide⟩

/-- C5 — amended. `reschedule` removes all MANAGED events (as its first and
only repository call) and returns the strategy's events without writing them
back; the one-`create_event`-per-event write-back belongs to
`schedule_tasks`, whose trace is `get_tasks`, `get_events`,
`remove_managed_events`, then one `createEvent` per produced event. -/
theorem C5_amended (strategy : Strategy) (now : Int) (tasks : List Task)
    (fixed_events : List Event) (repo_tasks : List Task) (repo_events : List Event)
    (horizon : Int) :
    (Scheduler.reschedule strategy now tasks fixed_events =
      (strategy tasks
        [⟨1440 * now.fdiv 1440 + 540, 1440 * now.fdiv 1440 + 540 + 240, ZoneType.deep,
          EnergyLevel.high, 30, 15, TimeBlockType.zone, fixed_events⟩] fixed_events,
       [RepoCall.removeManaged])) ∧
    (repo_tasks ≠ [] →
      Scheduler.schedule_tasks strategy now repo_tasks repo_events horizon =
        (strategy repo_tasks
          [⟨1440 * now.fdiv 1440 + 540, 1440 * now.fdiv 1440 + 540 + 240, ZoneType.deep,
            EnergyLevel.high, 30, 15, TimeBlockType.zone, []⟩] repo_events,
         [RepoCall.getTasks,
          RepoCall.getEvents (1440 * now.fdiv 1440 + 540)
            (1440 * now.fdiv 1440 + 540 + 1440 * horizon),
          RepoCall.removeManaged] ++
           (strategy repo_tasks
             [⟨1440 * now.fdiv 1440 + 540, 1440 * now.fdiv 1440 + 540 + 240, ZoneType.deep,
               EnergyLevel.high, 30, 15, TimeBlockType.zone, []⟩] repo_events).map
             RepoCall.createEvent)) := by
  constructor
  · rfl
  · intro hne
    have : repo_tasks.isEmpty = false := by
      simpa [List.isEmpty_iff] using hne
    simp [Scheduler.schedule_tasks, this]

/-- C5 — witness for the amended `schedule_tasks` pattern at a nonempty task
list. -/
theorem C5_amended_witness :
    Scheduler.schedule_tasks schedule 1000 [taskC5] [] 7 =
      (schedule [taskC5]
        [⟨540, 780, ZoneType.deep, EnergyLevel.high, 30, 15, TimeBlockType.zone, []⟩] [],
       [RepoCall.getTasks, RepoCall.getEvents 540 10620, RepoCall.removeManaged] ++
         (schedule [taskC5]
           [⟨540, 780, ZoneType.deep, EnergyLevel.high, 30, 15, TimeBlockType.zone, []⟩]
           []).map RepoCall.createEvent) :=
  (C5_amended schedule 1000 [] [] [taskC5] [] 7).2 (by decide)

/-- Writing at or beyond index `r` leaves every prefix of length `≤ r`
intact. -/
theorem take_set_of_le {α : Type} :
    ∀ (l : List α) (r : Nat) (x : α) (n : Nat), n ≤ r → (l.set r x).take n = l.take n := by
  intro l
  induction l with
  | nil => intro r x n _; simp
  | cons a l ih =>
    intro r x n h
    cases r with
    | zero =>
      have hn : n = 0 := Nat.le_zero.mp h
      subst hn
      simp
    | succ r' =>
      cases n with
      | zero => simp
      | succ n' =>
        show (a :: l.set r' x).take (n' + 1) = (a :: l).take (n' + 1)
        rw [List.take_succ_cons, List.take_succ_cons]
        exact congrArg (a :: ·) (ih r' x n' (Nat.succ_le_succ_iff.mp h))

theorem preserves_rfl (σ : Store) : Preserves σ σ :=
  ⟨List.take_length _, List.take_length _⟩

theorem Preserves.evLen_le {σ₀ σ : Store} (h : Preserves σ₀ σ) :
    σ₀.evCells.length ≤ σ.evCells.length := by
  have := congrArg List.length h.1
  simp only [List.length_take] at this
  omega

theorem Preserves.taskLen_le {σ₀ σ : Store} (h : Preserves σ₀ σ) :
    σ₀.taskCells.length ≤ σ.taskCells.length := by
  have := congrArg List.length h.2
  simp only [List.length_take] at this
  omega

theorem preserves_allocEv {σ₀ σ : Store} (h : Preserves σ₀ σ) (l : List Event) :
    Preserves σ₀ (σ.allocEv l).2 := by
  refine ⟨?_, h.2⟩
  show (σ.evCells ++ [l]).take σ₀.evCells.length = σ₀.evCells
  rw [List.take_append_of_le_length h.evLen_le]
  exact h.1

theorem preserves_allocTask {σ₀ σ : Store} (h : Preserves σ₀ σ) (l : List Task) :
    Preserves σ₀ (σ.allocTask l).2 := by
  refine ⟨h.1, ?_⟩
  show (σ.taskCells ++ [l]).take σ₀.taskCells.length = σ₀.taskCells
  rw [List.take_append_of_le_length h.taskLen_le]
  exact h.2

theorem preserves_writeEv {σ₀ σ : Store} (h : Preserves σ₀ σ) (r : Nat)
    (hr : σ₀.evCells.length ≤ r) (l : List Event) : Preserves σ₀ (σ.writeEv r l) := by
  refine ⟨?_, h.2⟩
  show (σ.evCells.set r l).take σ₀.evCells.length = σ₀.evCells
  rw [take_set_of_le _ _ _ _ hr]
  exact h.1

theorem preserves_writeTask {σ₀ σ : Store} (h : Preserves σ₀ σ) (r : Nat)
    (hr : σ₀.taskCells.length ≤ r) (l : List Task) : Preserves σ₀ (σ.writeTask r l) := by
  refine ⟨h.1, ?_⟩
  show (σ.taskCells.set r l).take σ₀.taskCells.length = σ₀.taskCells
  rw [take_set_of_le _ _ _ _ hr]
  exact h.2

/-- The single-block attempt writes only to the shared events cell. -/
theorem try_schedule_task_ref_frame (task : Task) (σ₀ : Store) :
    ∀ (zones : List TimeBlockZoneRef) (eventsRef : Nat) (ids : List String) (σ : Store),
      Preserves σ₀ σ → σ₀.evCells.length ≤ eventsRef →
      Preserves σ₀ (try_schedule_task_ref task zones eventsRef ids σ).2.2 := by
  intro zones
  induction zones with
  | nil => intro eventsRef ids σ h _; exact h
  | cons z zs ih =>
    intro eventsRef ids σ h hr
    simp only [try_schedule_task_ref]
    split
    · exact ih eventsRef ids σ h hr
    · split
      · split
        · exact preserves_writeEv h eventsRef hr _
        · exact ih eventsRef ids σ h hr
      · exact ih eventsRef ids σ h hr

/-- The chunk loop writes only to the private copy and task-events cells. -/
theorem split_sched_loop_ref_frame (task : Task) (sorted_zones : List TimeBlockZoneRef)
    (optimal : Int) (σ₀ : Store) :
    ∀ (fuel : Nat) (remaining chunk_count : Int) (ceRef teRef : Nat) (σ : Store),
      Preserves σ₀ σ → σ₀.evCells.length ≤ ceRef → σ₀.evCells.length ≤ teRef →
      Preserves σ₀ (split_sched_loop_ref task sorted_zones optimal fuel remaining
        chunk_count ceRef teRef σ).2 := by
  intro fuel
  induction fuel with
  | zero => intro remaining cc ceRef teRef σ h _ _; exact h
  | succ n ih =>
    intro remaining cc ceRef teRef σ h hce hte
    simp only [split_sched_loop_ref]
    split
    · split
      · exact h
      · exact ih _ _ ceRef teRef _
          (preserves_writeEv (preserves_writeEv h ceRef hce _) teRef hte _) hce hte
    · exact h

/-- The split attempt allocates its working cells freshly and writes only to
them and to the shared events cell. -/
theorem try_schedule_split_task_ref_frame (task : Task) (zones : List TimeBlockZoneRef)
    (eventsRef : Nat) (ids : List String) (σ σ₀ : Store) (h : Preserves σ₀ σ)
    (hr : σ₀.evCells.length ≤ eventsRef) :
    Preserves σ₀ (try_schedule_split_task_ref task zones eventsRef ids σ).2.2 := by
  have h1 : Preserves σ₀ (σ.allocEv (σ.readEv eventsRef)).2 := preserves_allocEv h _
  have h2 : Preserves σ₀ ((σ.allocEv (σ.readEv eventsRef)).2.allocEv []).2 :=
    preserves_allocEv h1 _
  have hce : σ₀.evCells.length ≤ (σ.allocEv (σ.readEv eventsRef)).1 := h.evLen_le
  have hte : σ₀.evCells.length ≤ ((σ.allocEv (σ.readEv eventsRef)).2.allocEv []).1 :=
    h1.evLen_le
  have hloop := split_sched_loop_ref_frame task (sortLe zoneRefLe zones)
    (max (min (task.duration.fdiv 2) 120) task.constraints.min_chunk_duration) σ₀
    task.constraints.max_split_count.toNat task.duration 0
    (σ.allocEv (σ.readEv eventsRef)).1 ((σ.allocEv (σ.readEv eventsRef)).2.allocEv []).1
    ((σ.allocEv (σ.readEv eventsRef)).2.allocEv []).2 h2 hce hte
  simp only [try_schedule_split_task_ref]
  cases hsl : split_sched_loop_ref task (sortLe zoneRefLe zones)
      (max (min (task.duration.fdiv 2) 120) task.constraints.min_chunk_duration)
      task.constraints.max_split_count.toNat task.duration 0
      (σ.allocEv (σ.readEv eventsRef)).1 ((σ.allocEv (σ.readEv eventsRef)).2.allocEv []).1
      ((σ.allocEv (σ.readEv eventsRef)).2.allocEv []).2 with
  | mk o σ3 =>
    rw [hsl] at hloop
    cases o with
    | none => exact hloop
    | some remaining =>
      dsimp only
      split
      · exact preserves_writeEv hloop eventsRef hr _
      · exact hloop

/-- The scheduling loop writes only to the shared events cell, the
remaining-tasks cell, and cells its placement attempts allocate. -/
theorem scheduleLoop_ref_frame (all_zones : List TimeBlockZoneRef) (σ₀ : Store) :
    ∀ (fuel : Nat) (remainingRef eventsRef : Nat) (ids : List String) (σ : Store),
      Preserves σ₀ σ → σ₀.evCells.length ≤ eventsRef →
      σ₀.taskCells.length ≤ remainingRef →
      Preserves σ₀ (scheduleLoop_ref all_zones fuel remainingRef eventsRef ids σ).2 := by
  intro fuel
  induction fuel with
  | zero => intro remainingRef eventsRef ids σ h _ _; exact h
  | succ n ih =>
    intro remainingRef eventsRef ids σ h hev htask
    simp only [scheduleLoop_ref]
    cases ha : sortLe taskLe (availableTasks (σ.readTask remainingRef) ids) with
    | nil => exact h
    | cons task rest =>
      have hatt : Preserves σ₀ ((if task.constraints.is_splittable = true then
          try_schedule_split_task_ref task all_zones eventsRef ids σ
        else try_schedule_task_ref task all_zones eventsRef ids σ)).2.2 := by
        by_cases hsp : task.constraints.is_splittable = true
        · simpa [hsp] using
            try_schedule_split_task_ref_frame task all_zones eventsRef ids σ σ₀ h hev
        · simpa [hsp] using
            try_schedule_task_ref_frame task σ₀ all_zones eventsRef ids σ h hev
      dsimp only
      generalize hgen : (if task.constraints.is_splittable = true then
          try_schedule_split_task_ref task all_zones eventsRef ids σ
        else try_schedule_task_ref task all_zones eventsRef ids σ) = att
      rw [hgen] at hatt
      obtain ⟨ok, ids', σ'⟩ := att
      cases ok with
      | false => exact hatt
      | true =>
        have hnext : Preserves σ₀
            (σ'.writeTask remainingRef ((σ'.readTask remainingRef).erase task)) :=
          preserves_writeTask hatt remainingRef htask _
        exact ih remainingRef eventsRef ids' _ hnext hev htask

/-- One day's zone copies only allocate fresh cells. -/
theorem allocZoneCopies_frame (day_floor : Int) (σ₀ : Store) :
    ∀ (base : List TimeBlockZoneRef) (σ : Store), Preserves σ₀ σ →
      Preserves σ₀ (allocZoneCopies day_floor base σ).2 := by
  intro base
  induction base with
  | nil => intro σ h; exact h
  | cons zone rest ih =>
    intro σ h
    simp only [allocZoneCopies]
    exact ih _ (preserves_allocEv h _)

theorem createDays_frame (base : List TimeBlockZoneRef) (start_date : Int) (σ₀ : Store) :
    ∀ (d day : Nat) (σ : Store), Preserves σ₀ σ →
      Preserves σ₀ (createDays base start_date d day σ).2 := by
  intro d
  induction d with
  | zero => intro day σ h; exact h
  | succ n ih =>
    intro day σ h
    simp only [createDays]
    exact ih (day + 1) _ (allocZoneCopies_frame _ σ₀ base σ h)

theorem create_multi_day_zones_ref_frame (base_zones : List TimeBlockZoneRef)
    (days : Nat) (σ σ₀ : Store) (h : Preserves σ₀ σ) :
    Preserves σ₀ (create_multi_day_zones_ref base_zones days σ).2 := by
  cases base_zones with
  | nil => exact h
  | cons z0 rest => exact createDays_frame _ _ σ₀ days 0 σ h

/-- C10 — confirmed. A run of `SequenceBasedStrategy.schedule` leaves every
cell the caller supplied — the `tasks` list, the `existing_events` list and
every zone template's `events` list — exactly as it was: the strategy copies
the task and event lists into fresh cells, projects the zones into fresh
zones with freshly allocated empty event lists, and every in-place write
(`append`, `extend`, `remove`) targets one of those fresh cells. `Event` and
`Task` objects are never mutated by the source (it contains no attribute
assignment), and the returned list is a fresh value produced by the final
filter. -/
theorem C10_input_immutability (tasksRef : Nat) (zones : List TimeBlockZoneRef)
    (existingRef : Nat) (σ : Store) :
    (schedule_ref tasksRef zones existingRef σ).2.evCells.take σ.evCells.length =
      σ.evCells ∧
    (schedule_ref tasksRef zones existingRef σ).2.taskCells.take σ.taskCells.length =
      σ.taskCells := by
  unfold schedule_ref
  by_cases hz : zones.isEmpty = true
  · simp only [hz, if_pos]
    exact preserves_rfl σ
  · simp only [hz, if_neg, Bool.false_eq_true, not_false_eq_true]
    have h1 : Preserves σ (σ.allocEv (σ.readEv existingRef)).2 :=
      preserves_allocEv (preserves_rfl σ) _
    have h2 : Preserves σ ((σ.allocEv (σ.readEv existingRef)).2.allocTask
        ((σ.allocEv (σ.readEv existingRef)).2.readTask tasksRef)).2 :=
      preserves_allocTask h1 _
    have h3 := create_multi_day_zones_ref_frame zones 7 _ σ h2
    have hev : σ.evCells.length ≤ (σ.allocEv (σ.readEv existingRef)).1 := le_refl _
    have htask : σ.taskCells.length ≤
        ((σ.allocEv (σ.readEv existingRef)).2.allocTask
          ((σ.allocEv (σ.readEv existingRef)).2.readTask tasksRef)).1 := le_refl _
    exact scheduleLoop_ref_frame _ σ _ _ _ [] _ h3 hev htask

end Taskflow
